import Mathlib

/-!
Verification development for the ezcap authorization-capability (zcap) client
engine. The definitions below are a shallow embedding of the capability
lifecycle engine: the root-capability identifier scheme (util.js,
generateZcapUri), the structural capability validator (_checkZcap), the
delegation engine (ZcapClient.delegate) and the invocation engine
(ZcapClient.request). JavaScript strings are modelled as lists of byte
values (the UTF-8 encoding of the string; all concrete inputs in this file
are ASCII, where code points and bytes coincide). JavaScript values are
modelled by the inductive type JSVal. Fallible code is modelled with Except.
-/

namespace Ezcap

/-- Strings are modelled as lists of byte values. -/
abbrev Str := List Nat

/-- Convert a Lean string literal of ASCII characters to the byte-list model. -/
def bytes (s : String) : Str := s.data.map Char.toNat

/-- Constant ZCAP_ROOT_PREFIX from the zcap constants module, used by
generateZcapUri and by request to recognize root capability URIs. -/
def ZCAP_ROOT_PREFIX : Str := bytes "urn:zcap:root:"

/-- Constant ZCAP_CONTEXT_URL from the zcap constants module. -/
def ZCAP_CONTEXT_URL : Str := bytes "https://w3id.org/zcap/v1"

/-! Percent encoding. encodeURIComponent leaves the unreserved bytes
A-Z a-z 0-9 and - . _ ~ ! * ( ) and the apostrophe byte 39 unchanged and
replaces every other byte b with a three byte sequence: the percent byte 37
followed by two uppercase hexadecimal digit bytes for b. decodeURIComponent
reverses this; it fails (JavaScript throws URIError) on a malformed percent
sequence. The model works at the byte level: JavaScript additionally checks
that decoded byte sequences form valid UTF-8, a check every output of
encodeURIComponent passes, so the two agree on all inputs arising here. -/

/-- Unreserved bytes that encodeURIComponent leaves unchanged. -/
def isUnreservedByte (b : Nat) : Bool :=
  decide ((65 ≤ b ∧ b ≤ 90) ∨ (97 ≤ b ∧ b ≤ 122) ∨ (48 ≤ b ∧ b ≤ 57) ∨
    b = 45 ∨ b = 46 ∨ b = 95 ∨ b = 126 ∨ b = 33 ∨ b = 42 ∨ b = 39 ∨
    b = 40 ∨ b = 41)

/-- Uppercase hexadecimal digit byte for a value below 16. -/
def hexDigitChar (n : Nat) : Nat := if n < 10 then 48 + n else 55 + n

/-- Encoding of a single byte under encodeURIComponent. -/
def encodeByte (b : Nat) : List Nat :=
  if isUnreservedByte b then [b]
  else [37, hexDigitChar (b / 16), hexDigitChar (b % 16)]

/-- Byte-level model of encodeURIComponent. -/
def encodeURIComponent (s : Str) : Str := (s.map encodeByte).flatten

/-- Value of a hexadecimal digit byte, none for a non-digit. -/
def hexVal (c : Nat) : Option Nat :=
  if 48 ≤ c ∧ c ≤ 57 then some (c - 48)
  else if 65 ≤ c ∧ c ≤ 70 then some (c - 55)
  else if 97 ≤ c ∧ c ≤ 102 then some (c - 87)
  else none

/-- Byte-level model of decodeURIComponent; none models a thrown URIError. -/
def decodeURIComponent : Str → Option Str
  | [] => some []
  | c :: rest =>
    if c = 37 then
      match rest with
      | h :: l :: rest2 =>
        match hexVal h, hexVal l with
        | some hv, some lv =>
          (decodeURIComponent rest2).map (fun t => (hv * 16 + lv) :: t)
        | _, _ => none
      | _ => none
    else (decodeURIComponent rest).map (fun t => c :: t)

/-- Model of JavaScript values, covering the shapes the engine inspects. -/
inductive JSVal where
  | undefined
  | null
  | bool (b : Bool)
  | num (n : Int)
  | str (s : Str)
  | arr (elems : List JSVal)
  | obj (fields : List (Str × JSVal))

/-- Property read v.k on a JavaScript value: the field value on an object
that has the field, undefined otherwise. Object keys are unique. -/
def getField (v : JSVal) (key : Str) : JSVal :=
  match v with
  | .obj fields =>
    match fields.lookup key with
    | some x => x
    | none => .undefined
  | _ => .undefined

/-- Test for the undefined value. -/
def isUndefined : JSVal → Bool
  | .undefined => true
  | _ => false

/-- Model of the check: typeof v is string and v.includes(colon). -/
def isStrWithColon (v : JSVal) : Bool :=
  match v with
  | .str s => s.contains 58
  | _ => false

/-- JavaScript truthiness of a value. -/
def jsTruthy : JSVal → Bool
  | .undefined => false
  | .null => false
  | .bool b => b
  | .num n => decide (n ≠ 0)
  | .str s => !s.isEmpty
  | .arr _ => true
  | .obj _ => true

/-- Model of the strict equality test between a value and a string constant. -/
def strictEqStr (v : JSVal) (s : Str) : Bool :=
  match v with
  | .str t => decide (t = s)
  | _ => false

/-- Field name at-context. -/
def contextKey : Str := bytes "@context"

/-- Field name id. -/
def idKey : Str := bytes "id"

/-- Field name parentCapability. -/
def parentCapabilityKey : Str := bytes "parentCapability"

/-- Field name invocationTarget. -/
def invocationTargetKey : Str := bytes "invocationTarget"

/-- Field name allowedAction. -/
def allowedActionKey : Str := bytes "allowedAction"

/-- Field name expires. -/
def expiresKey : Str := bytes "expires"

/-- A uuid URN as produced by generateZcapUri with no url; the fresh random
uuid string is a parameter of the model. -/
def uuidUri (freshId : Str) : Str := bytes "urn:uuid:" ++ freshId

/-- Model of generateZcapUri from util.js. A truthy url (every call site
passes either no url or a nonempty string) yields the fixed root prefix
followed by the percent encoded url, with no further validation; otherwise a
fresh uuid URN is returned. -/
def generateZcapUri (url : Option Str) (freshId : Str) : Str :=
  match url with
  | some s => if s.isEmpty then uuidUri freshId else
      ZCAP_ROOT_PREFIX ++ encodeURIComponent s
  | none => uuidUri freshId

/-! Structural capability validator: function _checkZcap of ZcapClient.js.
The source destructures the capability, then branches on whether
parentCapability is undefined (root shape) or present (delegated shape). In
the delegated branch the source line
  const [proof] = exports.getDelegationProofs(\x7bcapability\x7d);
reads the member getDelegationProofs from the binding exports, which does
not exist in an ES module, so evaluating that line throws a ReferenceError
on every input that reaches it. The constructor
referenceErrorExportsUndefined models that thrown ReferenceError. -/

/-- Errors thrown by _checkZcap (each constructor is one throw site, in
source order), plus the TypeError thrown when destructuring null. -/
inductive CheckErr where
  | typeErrorNotObject
  | rootBadContext
  | rootHasExpires
  | delegatedBadContext
  | delegatedBadParent
  | referenceErrorExportsUndefined
  | badId
  | badInvocationTarget
  | badAllowedAction
deriving DecidableEq

/-- Model of the check on the allowedAction field: absent, or a string, or a
nonempty array. -/
def allowedActionOk (v : JSVal) : Bool :=
  match v with
  | .undefined => true
  | .str _ => true
  | .arr xs => !xs.isEmpty
  | _ => false

/-- Model of the delegated-shape context check: Array.isArray and first
element strictly equal to ZCAP_CONTEXT_URL. -/
def delegatedContextOk (context : JSVal) : Bool :=
  match context with
  | .arr (c0 :: _) => strictEqStr c0 ZCAP_CONTEXT_URL
  | _ => false

/-- Model of _checkZcap. Destructuring null or undefined throws a TypeError;
otherwise the checks run in source order. In the delegated branch, after the
context and parentCapability checks, the read of
exports.getDelegationProofs throws a ReferenceError unconditionally, so the
remaining delegated checks and the trailing id, invocationTarget and
allowedAction checks are unreachable for delegated-shape input. -/
def _checkZcap (capability : JSVal) : Except CheckErr Unit :=
  match capability with
  | .null => .error .typeErrorNotObject
  | .undefined => .error .typeErrorNotObject
  | _ =>
    let context := getField capability contextKey
    let id := getField capability idKey
    let parentCapability := getField capability parentCapabilityKey
    let invocationTarget := getField capability invocationTargetKey
    let allowedAction := getField capability allowedActionKey
    let expires := getField capability expiresKey
    if isUndefined parentCapability then
      if !(strictEqStr context ZCAP_CONTEXT_URL) then .error .rootBadContext
      else if !(isUndefined expires) then .error .rootHasExpires
      else if !(isStrWithColon id) then .error .badId
      else if !(isStrWithColon invocationTarget) then .error .badInvocationTarget
      else if !(allowedActionOk allowedAction) then .error .badAllowedAction
      else .ok ()
    else
      if !(delegatedContextOk context) then .error .delegatedBadContext
      else if !(isStrWithColon parentCapability) then .error .delegatedBadParent
      else .error .referenceErrorExportsUndefined

/-! Delegation engine: ZcapClient.delegate. Parameters of the model beyond
the source arguments: hasDelegationSigner (whether the constructor stored a
delegation signer), dateParse (an oracle for Date.parse on strings, none
modelling NaN), now (Date.now in milliseconds) and freshId (the random uuid
drawn by generateZcapUri when called with no url). The external signing
collaborator (jsigs.sign) attaches a proof to the freshly built document and
returns it with the fields below unchanged, so the model returns the
document itself. -/

/-- Serialized expires value of a delegated capability document: either the
caller supplied string kept verbatim, or a Date serialized at second
precision by toISOString().slice(0,-5), modelled as whole seconds. -/
inductive ExpiresVal where
  | str (s : Str)
  | sec (n : Nat)
deriving DecidableEq

/-- The expires argument of delegate: a string, a valid Date instance
(milliseconds since the epoch), or a value of any other type. -/
inductive ExpiresArg where
  | str (s : Str)
  | date (ms : Nat)
  | other
deriving DecidableEq

/-- Errors thrown by delegate, one constructor per throw site in source
order. -/
inductive DelegateErr where
  | missingSigner
  | invalidInvocationTargetArg
  | missingCapabilityAndTarget
  | invalidExpires
  | invalidExpiresType
  | invalidCapabilityType
  | missingInvocationTargetForStringCapability
  | invocationTargetNotString
  | invalidAllowedActions
deriving DecidableEq

/-- The delegated capability document built by delegate (source lines that
construct delegatedCapability): the at-context field is the plain string
ZCAP_CONTEXT_URL, id is a fresh uuid URN, and allowedAction is present
exactly when the normalized allowedActions list is nonempty. -/
structure DelegatedDoc where
  context : Str
  id : Str
  controller : JSVal
  parentCapability : Str
  invocationTarget : Str
  expires : ExpiresVal
  allowedAction : Option (List JSVal)

/-- Resolution of the expires argument (source lines 158 to 175): an omitted
expires defaults to a Date five minutes after now and is then serialized at
second precision; a string must satisfy Date.parse and is kept verbatim; a
Date instance is serialized at second precision; any other type is a
TypeError. -/
def expiresResolve (dateParse : Str → Option Nat) (expires : Option ExpiresArg)
    (now : Nat) : Except DelegateErr ExpiresVal :=
  match expires with
  | none => .ok (.sec ((now + 5 * 60 * 1000) / 1000))
  | some (.str s) =>
    match dateParse s with
    | none => .error .invalidExpires
    | some _ => .ok (.str s)
  | some (.date ms) => .ok (.sec (ms / 1000))
  | some .other => .error .invalidExpiresType

/-- Resolution of parentCapability (source lines 182 to 192): the capability
itself when it is a string, its id field when it is an object whose id is a
string, a TypeError otherwise. -/
def parentCapabilityOf (capability : JSVal) : Except DelegateErr Str :=
  match capability with
  | .str s => .ok s
  | .obj fields =>
    match getField (.obj fields) idKey with
    | .str i => .ok i
    | _ => .error .invalidCapabilityType
  | _ => .error .invalidCapabilityType

/-- Resolution of the effective invocation target (source lines 194 to 206):
when the invocationTarget argument is undefined it is an error for a string
capability and is inherited from the capability object otherwise; the
resolved value must be a string. -/
def resolveDelegationTarget (capability invocationTarget : JSVal) :
    Except DelegateErr Str :=
  if isUndefined invocationTarget then
    match capability with
    | .str _ => .error .missingInvocationTargetForStringCapability
    | _ =>
      match getField capability invocationTargetKey with
      | .str t => .ok t
      | _ => .error .invocationTargetNotString
  else
    match invocationTarget with
    | .str t => .ok t
    | _ => .error .invocationTargetNotString

/-- Normalization of the allowedActions argument (source lines 208 to 216):
a bare string becomes a singleton array, an array is kept, anything else is
a TypeError. The default for an omitted argument is the empty array. -/
def normalizeAllowedActions (v : JSVal) : Except DelegateErr (List JSVal) :=
  match v with
  | .str s => .ok [.str s]
  | .arr xs => .ok xs
  | _ => .error .invalidAllowedActions

/-- View of a JSVal as the url option of generateZcapUri; non-string values
never reach the call site (it is guarded by the checks before it). -/
def asUrlArg : JSVal → Option Str
  | .str s => some s
  | _ => none

/-- Construction of the delegated capability document from the resolved
capability (source lines 182 to 228): parentCapability resolution,
invocation target resolution, allowedActions normalization, then the
document literal with allowedAction present exactly when the normalized
list is nonempty. -/
def buildDelegatedDoc (capability2 controller invocationTarget : JSVal)
    (expiresVal : ExpiresVal) (allowedActions : JSVal) (freshId : Str) :
    Except DelegateErr DelegatedDoc :=
  match parentCapabilityOf capability2 with
  | .error e => .error e
  | .ok parentCapability =>
    match resolveDelegationTarget capability2 invocationTarget with
    | .error e => .error e
    | .ok target =>
      match normalizeAllowedActions allowedActions with
      | .error e => .error e
      | .ok actions =>
        .ok {
          context := ZCAP_CONTEXT_URL
          id := generateZcapUri none freshId
          controller := controller
          parentCapability := parentCapability
          invocationTarget := target
          expires := expiresVal
          allowedAction := if actions.isEmpty then none else some actions
        }

/-- Model of ZcapClient.delegate. The source order of checks is preserved:
missing delegation signer, malformed invocationTarget argument, neither
capability nor invocationTarget given, expires resolution, root capability
generation for a falsy capability, then document construction and signing.
An omitted capability or invocationTarget argument is the value undef, an
omitted allowedActions argument is the value arr []. -/
def delegate (hasDelegationSigner : Bool) (dateParse : Str → Option Nat)
    (capability controller invocationTarget : JSVal)
    (expires : Option ExpiresArg) (allowedActions : JSVal)
    (now : Nat) (freshId : Str) : Except DelegateErr DelegatedDoc :=
  if !hasDelegationSigner then .error .missingSigner
  else if !(isUndefined invocationTarget) && !(isStrWithColon invocationTarget) then
    .error .invalidInvocationTargetArg
  else if !(jsTruthy capability || jsTruthy invocationTarget) then
    .error .missingCapabilityAndTarget
  else
    match expiresResolve dateParse expires now with
    | .error e => .error e
    | .ok expiresVal =>
      buildDelegatedDoc
        (if jsTruthy capability then capability
         else .str (generateZcapUri (asUrlArg invocationTarget) freshId))
        controller invocationTarget expiresVal allowedActions freshId

/-! Invocation engine: ZcapClient.request. A successful result models the
call proceeding to signCapabilityInvocation and httpClient dispatch; every
error constructor models a throw that happens before any signing or
transport. -/

/-- Errors thrown by request before signing, one constructor per throw site
in source order; invalidCapabilityObject is the wrapping error with message
that the capability must be a valid authorization capability object, whose
cause is the error thrown inside _checkZcap. -/
inductive ReqErr where
  | missingSigner
  | stringCapabilityNotRoot
  | uriDecodeError
  | stringCapabilityNotHttps
  | invalidCapabilityObject (cause : CheckErr)
  | missingUrlAndCapability
  | scopeViolation
deriving DecidableEq

/-- The capability reference handed to the signing collaborator: the given
capability, or a root capability URI generated from the url. -/
inductive CapRef where
  | given (c : JSVal)
  | generated (uri : Str)

/-- Extraction of the invocation target from the capability argument of
request (source lines 283 to 309). A string capability must start with
ZCAP_ROOT_PREFIX; the remainder is percent decoded (a decode failure is the
thrown URIError) and must start with https. An object capability is
validated by _checkZcap, any thrown error being wrapped; on success its
invocationTarget field, which validation guarantees to be a string, is
extracted. An omitted capability yields no target. -/
def resolveInvocationTarget (capability : JSVal) :
    Except ReqErr (Option Str) :=
  match capability with
  | .undefined => .ok none
  | .str s =>
    if !(ZCAP_ROOT_PREFIX.isPrefixOf s) then .error .stringCapabilityNotRoot
    else
      match decodeURIComponent (s.drop ZCAP_ROOT_PREFIX.length) with
      | none => .error .uriDecodeError
      | some target =>
        if !((bytes "https://").isPrefixOf target) then
          .error .stringCapabilityNotHttps
        else .ok (some target)
  | c =>
    match _checkZcap c with
    | .error e => .error (.invalidCapabilityObject e)
    | .ok _ =>
      match getField c invocationTargetKey with
      | .str t => .ok (some t)
      | _ => .ok (some [])

/-- Model of ZcapClient.request. The url argument is a string or omitted. A
successful result carries the effective url and the capability reference
passed on to signing and dispatch; every failure happens before signing.
The confused-deputy check (source lines 318 to 330) runs exactly when both
url and capability were given: the url must start with the invocation
target followed by a slash, or equal the invocation target. -/
def request (hasInvocationSigner : Bool) (url : Option Str)
    (capability : JSVal) (freshId : Str) : Except ReqErr (Str × CapRef) :=
  if !hasInvocationSigner then .error .missingSigner
  else
    match resolveInvocationTarget capability with
    | .error e => .error e
    | .ok targetOpt =>
      match url with
      | none =>
        match targetOpt with
        | none => .error .missingUrlAndCapability
        | some t => .ok (t, .given capability)
      | some u =>
        match targetOpt with
        | none => .ok (u, .generated (generateZcapUri (some u) freshId))
        | some t =>
          if (t ++ [47]).isPrefixOf u || u == t then .ok (u, .given capability)
          else .error .scopeViolation

/-! Heap layer. The frame claim about capability objects is stated over an
explicit object store: object-valued arguments are references into a heap of
field lists, reads go through the heap, and every object write of the
source is mirrored as a heap update. In delegate the only object the source
writes to is the freshly allocated delegatedCapability document (field
literal, the conditional allowedAction assignment, and the proof attached by
the signing collaborator); request builds only fresh local header objects by
spreading and writes to no object at all. -/

/-- An object heap: references paired with field lists. -/
abbrev Heap := List (Nat × List (Str × JSVal))

/-- Lookup of a reference in the heap. -/
def heapGet (h : Heap) (r : Nat) : Option (List (Str × JSVal)) := h.lookup r

/-- A capability argument as passed by a caller: omitted, a string, or a
reference to a heap object. -/
inductive CapArg where
  | undefined
  | str (s : Str)
  | ref (r : Nat)

/-- The value a capability argument denotes under a heap. Dangling
references do not occur. -/
def materialize (h : Heap) (c : CapArg) : JSVal :=
  match c with
  | .undefined => .undefined
  | .str s => .str s
  | .ref r =>
    match heapGet h r with
    | some fields => .obj fields
    | none => .undefined

/-- Heap representation of the expires field of a delegated document; a
second precision timestamp is stored as its number of seconds. -/
def expiresField : ExpiresVal → JSVal
  | .str s => .str s
  | .sec n => .num n

/-- Field list of a freshly built delegated capability document. -/
def docFields (d : DelegatedDoc) : List (Str × JSVal) :=
  [(contextKey, .str d.context), (idKey, .str d.id),
   (bytes "controller", d.controller),
   (parentCapabilityKey, .str d.parentCapability),
   (invocationTargetKey, .str d.invocationTarget),
   (expiresKey, expiresField d.expires)] ++
  (match d.allowedAction with
   | some xs => [(allowedActionKey, .arr xs)]
   | none => [])

/-- Heap-passing model of delegate: the capability argument is read through
the heap, and on success the freshly built document is allocated at a fresh
reference; no other heap cell is written, mirroring the source, whose only
object writes target the new delegatedCapability. -/
def delegateHeap (h : Heap) (freshRef : Nat) (hasDelegationSigner : Bool)
    (dateParse : Str → Option Nat) (capability : CapArg)
    (controller invocationTarget : JSVal) (expires : Option ExpiresArg)
    (allowedActions : JSVal) (now : Nat) (freshId : Str) :
    Except DelegateErr Nat × Heap :=
  match delegate hasDelegationSigner dateParse (materialize h capability)
      controller invocationTarget expires allowedActions now freshId with
  | .error e => (.error e, h)
  | .ok d => (.ok freshRef, (freshRef, docFields d) :: h)

/-- Heap-passing model of request: the capability argument is read through
the heap and the heap is returned unchanged, mirroring the source, which
performs no object write (the header objects it builds are fresh locals). -/
def requestHeap (h : Heap) (hasInvocationSigner : Bool) (url : Option Str)
    (capability : CapArg) (freshId : Str) :
    Except ReqErr (Str × CapRef) × Heap :=
  (request hasInvocationSigner url (materialize h capability) freshId, h)

/-! Helper lemmas about percent encoding. -/

/-- Decoding a hex digit byte produced for a value below 16 recovers it. -/
theorem hexVal_hexDigitChar (x : Nat) (hx : x < 16) :
    hexVal (hexDigitChar x) = some x := by
  unfold hexVal hexDigitChar
  split_ifs <;> first
    | (simp only [Option.some.injEq]; omega)
    | omega

/-- The percent byte is not unreserved. -/
theorem isUnreservedByte_ne_37 (b : Nat) (h : isUnreservedByte b = true) :
    b ≠ 37 := by
  have := of_decide_eq_true h
  omega

/-- Decoding step on a byte other than the percent byte. -/
theorem decode_cons_not37 (c : Nat) (hc : c ≠ 37) (l : Str) :
    decodeURIComponent (c :: l) =
      (decodeURIComponent l).map (fun t => c :: t) := by
  rw [decodeURIComponent.eq_def]
  simp [hc]

/-- Decoding step on a valid percent sequence. -/
theorem decode_percent (h l : Nat) (hv lv : Nat) (hh : hexVal h = some hv)
    (hl : hexVal l = some lv) (rest : Str) :
    decodeURIComponent (37 :: h :: l :: rest) =
      (decodeURIComponent rest).map (fun t => (hv * 16 + lv) :: t) := by
  rw [decodeURIComponent.eq_def]
  simp [hh, hl]

/-- Percent decoding inverts percent encoding on byte strings. -/
theorem decode_encode (u : Str) (hb : ∀ b ∈ u, b < 256) :
    decodeURIComponent (encodeURIComponent u) = some u := by
  induction u with
  | nil => rfl
  | cons b u ih =>
    have hb' : b < 256 := hb b (List.mem_cons_self b u)
    have hbu : ∀ x ∈ u, x < 256 := fun x hx => hb x (List.mem_cons_of_mem _ hx)
    have henc : encodeURIComponent (b :: u) =
        encodeByte b ++ encodeURIComponent u := by
      simp [encodeURIComponent]
    rw [henc]
    by_cases hun : isUnreservedByte b = true
    · have hb37 : b ≠ 37 := isUnreservedByte_ne_37 b hun
      have h1 : encodeByte b = [b] := by simp [encodeByte, hun]
      rw [h1, List.singleton_append, decode_cons_not37 b hb37, ih hbu]
      rfl
    · have h1 : encodeByte b =
          [37, hexDigitChar (b / 16), hexDigitChar (b % 16)] := by
        simp [encodeByte, hun]
      have h2 : hexVal (hexDigitChar (b / 16)) = some (b / 16) :=
        hexVal_hexDigitChar _ (by omega)
      have h3 : hexVal (hexDigitChar (b % 16)) = some (b % 16) :=
        hexVal_hexDigitChar _ (by omega)
      rw [h1]
      show decodeURIComponent
        (37 :: hexDigitChar (b / 16) :: hexDigitChar (b % 16) ::
          encodeURIComponent u) = some (b :: u)
      rw [decode_percent _ _ _ _ h2 h3, ih hbu]
      simp only [Option.map_some', Option.some.injEq, List.cons.injEq]
      exact ⟨by omega, trivial⟩

/-- Percent encoding is injective on byte strings. -/
theorem encode_injective (u v : Str) (hu : ∀ b ∈ u, b < 256)
    (hv : ∀ b ∈ v, b < 256)
    (h : encodeURIComponent u = encodeURIComponent v) : u = v := by
  have h1 := decode_encode u hu
  have h2 := decode_encode v hv
  rw [h] at h1
  rw [h1] at h2
  exact (Option.some.injEq _ _).mp h2

/-- Evaluation of generateZcapUri on a nonempty url. -/
theorem generateZcapUri_eq (u fid : Str) (hu : u ≠ []) :
    generateZcapUri (some u) fid = ZCAP_ROOT_PREFIX ++ encodeURIComponent u := by
  have hue : u.isEmpty = false := by
    cases u with
    | nil => exact absurd rfl hu
    | cons a l => rfl
  simp [generateZcapUri, hue]

/-! Inversion lemmas for the delegation engine. -/

/-- Inversion of a successful document construction: each resolution step
succeeded and the document is the literal built from the results. -/
theorem buildDelegatedDoc_ok (c2 ctrl it : JSVal) (ev : ExpiresVal)
    (aa : JSVal) (fid : Str) (d : DelegatedDoc)
    (h : buildDelegatedDoc c2 ctrl it ev aa fid = .ok d) :
    ∃ pc tgt acts, parentCapabilityOf c2 = .ok pc ∧
      resolveDelegationTarget c2 it = .ok tgt ∧
      normalizeAllowedActions aa = .ok acts ∧
      d = {
        context := ZCAP_CONTEXT_URL
        id := generateZcapUri none fid
        controller := ctrl
        parentCapability := pc
        invocationTarget := tgt
        expires := ev
        allowedAction := if acts.isEmpty then none else some acts
      } := by
  unfold buildDelegatedDoc at h
  rcases h1 : parentCapabilityOf c2 with e | pc
  · rw [h1] at h
    exact absurd h (by simp)
  · rw [h1] at h
    rcases h2 : resolveDelegationTarget c2 it with e | tgt
    · rw [h2] at h
      exact absurd h (by simp)
    · rw [h2] at h
      rcases h3 : normalizeAllowedActions aa with e | acts
      · rw [h3] at h
        exact absurd h (by simp)
      · rw [h3] at h
        simp only [Except.ok.injEq] at h
        exact ⟨pc, tgt, acts, rfl, rfl, rfl, h.symm⟩

/-- Inversion of a successful delegate call: the delegation signer was
present, the argument checks passed, expires resolution succeeded, and the
document was built from the resolved capability. -/
theorem delegate_ok (hs : Bool) (dp : Str → Option Nat)
    (cap ctrl it : JSVal) (exp : Option ExpiresArg) (aa : JSVal)
    (now : Nat) (fid : Str) (d : DelegatedDoc)
    (h : delegate hs dp cap ctrl it exp aa now fid = .ok d) :
    hs = true ∧
    (!(isUndefined it) && !(isStrWithColon it)) = false ∧
    (jsTruthy cap || jsTruthy it) = true ∧
    ∃ ev, expiresResolve dp exp now = .ok ev ∧
      buildDelegatedDoc
        (if jsTruthy cap then cap
         else .str (generateZcapUri (asUrlArg it) fid))
        ctrl it ev aa fid = .ok d := by
  unfold delegate at h
  by_cases h1 : (!hs) = true
  · rw [if_pos h1] at h
    exact absurd h (by simp)
  · rw [if_neg h1] at h
    have hhs : hs = true := by
      revert h1
      cases hs <;> simp
    by_cases h2 : (!(isUndefined it) && !(isStrWithColon it)) = true
    · rw [if_pos h2] at h
      exact absurd h (by simp)
    · rw [if_neg h2] at h
      have hc1 : (!(isUndefined it) && !(isStrWithColon it)) = false := by
        revert h2
        cases (!(isUndefined it) && !(isStrWithColon it)) <;> simp
      by_cases h3 : (!(jsTruthy cap || jsTruthy it)) = true
      · rw [if_pos h3] at h
        exact absurd h (by simp)
      · rw [if_neg h3] at h
        have hc2 : (jsTruthy cap || jsTruthy it) = true := by
          revert h3
          cases (jsTruthy cap || jsTruthy it) <;> simp
        rcases hexp : expiresResolve dp exp now with e | ev
        · rw [hexp] at h
          exact absurd h (by simp)
        · rw [hexp] at h
          exact ⟨hhs, hc1, hc2, ev, rfl, h⟩

/-- Document construction ignores the controller value except for copying it
into the controller field. -/
theorem buildDelegatedDoc_controller (c2 ctrl ctrl2 it : JSVal)
    (ev : ExpiresVal) (aa : JSVal) (fid : Str) :
    buildDelegatedDoc c2 ctrl it ev aa fid =
      Except.map (fun d => { d with controller := ctrl })
        (buildDelegatedDoc c2 ctrl2 it ev aa fid) := by
  unfold buildDelegatedDoc
  rcases h1 : parentCapabilityOf c2 with e | pc
  · rfl
  · rcases h2 : resolveDelegationTarget c2 it with e | tgt
    · rfl
    · rcases h3 : normalizeAllowedActions aa with e | acts
      · rfl
      · rfl

/-! Helper lemmas for the invocation engine. -/

/-- Classifier for the wrapping error of request with the message that the
capability must be a valid authorization capability object. -/
def failsAsInvalidCapability : Except ReqErr (Str × CapRef) → Bool
  | .error (.invalidCapabilityObject _) => true
  | _ => false

/-- Every object with a present parentCapability field makes _checkZcap
throw: the delegated branch has only error exits, ending at the
ReferenceError on the undefined exports binding. -/
theorem checkZcap_delegated_err (fields : List (Str × JSVal))
    (hpar : isUndefined (getField (.obj fields) parentCapabilityKey) = false) :
    ∃ e, _checkZcap (.obj fields) = .error e := by
  cases hdc : delegatedContextOk (getField (.obj fields) contextKey) with
  | false =>
    exact ⟨.delegatedBadContext, by simp [_checkZcap, hpar, hdc]⟩
  | true =>
    cases hpc : isStrWithColon (getField (.obj fields) parentCapabilityKey) with
    | false =>
      exact ⟨.delegatedBadParent, by simp [_checkZcap, hpar, hdc, hpc]⟩
    | true =>
      exact ⟨.referenceErrorExportsUndefined,
        by simp [_checkZcap, hpar, hdc, hpc]⟩

/-- Reduction of request when url is given and the capability argument
passed validation with extracted target t: only the confused-deputy check
remains. -/
theorem request_reduces (u : Str) (c : JSVal) (t fid : Str)
    (hval : resolveInvocationTarget c = .ok (some t)) :
    request true (some u) c fid =
      (if (t ++ [47]).isPrefixOf u || u == t then .ok (u, .given c)
       else .error .scopeViolation) := by
  unfold request
  rw [hval]
  rfl

/-! Concrete sample values used by the witnesses below. -/

/-- A well formed root shaped capability object for the invocation target
https zcap.example items. -/
def sampleRootZcap : JSVal := .obj [
  (contextKey, .str ZCAP_CONTEXT_URL),
  (idKey, .str (bytes "urn:zcap:root:https%3A%2F%2Fzcap.example%2Fitems")),
  (invocationTargetKey, .str (bytes "https://zcap.example/items"))]

/-- A fully well formed delegated capability object: context array with the
zcap context first, id, parentCapability and invocationTarget strings with
scheme separators, a parseable expires, an allowedAction list, and a
delegation proof with a parseable created timestamp. -/
def wellFormedDelegatedZcap : JSVal := .obj [
  (contextKey, .arr [.str ZCAP_CONTEXT_URL,
    .str (bytes "https://w3id.org/security/suites/ed25519-2020/v1")]),
  (idKey, .str (bytes "urn:uuid:0f5dc1bc-ec95-44f6-8b31-2c0c2b7a84ec")),
  (parentCapabilityKey,
    .str (bytes "urn:zcap:root:https%3A%2F%2Fzcap.example%2Fitems")),
  (invocationTargetKey, .str (bytes "https://zcap.example/items")),
  (expiresKey, .str (bytes "2026-01-01T00:00:00Z")),
  (allowedActionKey, .arr [.str (bytes "read")]),
  (bytes "proof", .obj [
    (bytes "created", .str (bytes "2025-01-01T00:00:00Z")),
    (bytes "proofPurpose", .str (bytes "capabilityDelegation"))])]

/-- The document produced by the concrete string capability delegation used
by the parentCapability witness. -/
def sampleC5Doc : DelegatedDoc := {
  context := ZCAP_CONTEXT_URL
  id := bytes "urn:uuid:f"
  controller := .str (bytes "did:key:z1")
  parentCapability := bytes "urn:zcap:root:abc"
  invocationTarget := bytes "https://x.example/y"
  expires := .sec 300
  allowedAction := none }

/-- The document produced by the concrete default expiration delegation
used by the expires witness. -/
def sampleC7Doc : DelegatedDoc := {
  context := ZCAP_CONTEXT_URL
  id := bytes "urn:uuid:g"
  controller := .str (bytes "did:key:zA")
  parentCapability := bytes "urn:zcap:root:https%3A%2F%2Fzcap.example%2Fa"
  invocationTarget := bytes "https://zcap.example/a"
  expires := .sec 301
  allowedAction := none }

/-- The document produced when a bare string allowedActions is supplied. -/
def sampleC8DocRead : DelegatedDoc := {
  context := ZCAP_CONTEXT_URL
  id := bytes "urn:uuid:h"
  controller := .str (bytes "did:key:z2")
  parentCapability := bytes "urn:zcap:root:abc"
  invocationTarget := bytes "https://x.example/y"
  expires := .sec 300
  allowedAction := some [.str (bytes "read")] }

/-- The document produced when an empty allowedActions list is supplied. -/
def sampleC8DocNone : DelegatedDoc := {
  context := ZCAP_CONTEXT_URL
  id := bytes "urn:uuid:h"
  controller := .str (bytes "did:key:z2")
  parentCapability := bytes "urn:zcap:root:abc"
  invocationTarget := bytes "https://x.example/y"
  expires := .sec 300
  allowedAction := none }

/-- A heap holding one capability object at reference 0. -/
def sampleHeap : Heap := [(0, [
  (idKey, .str (bytes "urn:zcap:root:abc")),
  (invocationTargetKey, .str (bytes "https://x.example/y"))])]

/-! Claim theorems. -/

/-- C1: when request is called with both a url and a capability that passes
validation (whose extracted invocation target is t), the call proceeds to
signing and dispatch (a successful result) exactly when the url equals t or
starts with t followed by a slash; when neither holds the call fails with
the scope violation error, which is raised before any signing or transport
occurs. -/
theorem request_scope_enforcement (u : Str) (c : JSVal) (t fid : Str)
    (hval : resolveInvocationTarget c = .ok (some t)) :
    (request true (some u) c fid = .ok (u, .given c) ↔
      ((t ++ [47]).isPrefixOf u || u == t) = true) ∧
    (((t ++ [47]).isPrefixOf u || u == t) = false →
      request true (some u) c fid = .error .scopeViolation) := by
  have hreq := request_reduces u c t fid hval
  constructor
  · constructor
    · intro hok
      by_contra hcond
      rw [hreq, if_neg (fun hc => hcond hc)] at hok
      exact absurd hok (by simp)
    · intro hcond
      rw [hreq, if_pos hcond]
  · intro hcond
    rw [hreq, if_neg (by rw [hcond]; exact Bool.false_ne_true)]

/-- Witness for C1: with a capability whose invocation target is https
zcap.example items, requesting url https zcap.example items 123 proceeds. -/
theorem request_scope_enforcement_witness :
    resolveInvocationTarget sampleRootZcap =
      .ok (some (bytes "https://zcap.example/items")) ∧
    request true (some (bytes "https://zcap.example/items/123"))
      sampleRootZcap (bytes "f") =
      .ok (bytes "https://zcap.example/items/123", .given sampleRootZcap) :=
  ⟨rfl, (request_scope_enforcement (bytes "https://zcap.example/items/123")
    sampleRootZcap (bytes "https://zcap.example/items") (bytes "f")
    rfl).1.mpr rfl⟩

/-- C2: for every absolute URL u (a nonempty byte string), the root
capability URI produced by generateZcapUri round-trips: dropping the fixed
root prefix and percent decoding, exactly as request does for a string
capability, yields u again; for an https URL the full request extraction
returns u; and the mapping from URLs to root URIs is injective. -/
theorem rootCapabilityUri_roundtrip_injective (u v fid fid2 : Str)
    (hu : u ≠ []) (hub : ∀ b ∈ u, b < 256)
    (hv : v ≠ []) (hvb : ∀ b ∈ v, b < 256) :
    decodeURIComponent ((generateZcapUri (some u) fid).drop
      ZCAP_ROOT_PREFIX.length) = some u
    ∧ ((bytes "https://").isPrefixOf u = true →
        resolveInvocationTarget (.str (generateZcapUri (some u) fid)) =
          .ok (some u))
    ∧ (generateZcapUri (some u) fid = generateZcapUri (some v) fid2 →
        u = v) := by
  have hgu := generateZcapUri_eq u fid hu
  have hgv := generateZcapUri_eq v fid2 hv
  have hdrop : (generateZcapUri (some u) fid).drop ZCAP_ROOT_PREFIX.length =
      encodeURIComponent u := by
    rw [hgu]
    simp
  refine ⟨?_, ?_, ?_⟩
  · rw [hdrop]
    exact decode_encode u hub
  · intro hhttps
    have hpre : ZCAP_ROOT_PREFIX.isPrefixOf (generateZcapUri (some u) fid) =
        true := by
      rw [hgu]
      simp [List.isPrefixOf_iff_prefix]
    simp only [resolveInvocationTarget, hpre, Bool.not_true,
      Bool.false_eq_true, if_false, hdrop, decode_encode u hub, hhttps]
  · intro h
    rw [hgu, hgv] at h
    have := List.append_cancel_left h
    exact encode_injective u v hub hvb this

/-- Witness for C2: the URI derived from https zcap.example items decodes
back to it. -/
theorem rootCapabilityUri_roundtrip_witness :
    (bytes "https://zcap.example/items" : Str) ≠ [] ∧
    decodeURIComponent
      ((generateZcapUri (some (bytes "https://zcap.example/items"))
        (bytes "f")).drop ZCAP_ROOT_PREFIX.length) =
      some (bytes "https://zcap.example/items") :=
  ⟨by decide,
   (rootCapabilityUri_roundtrip_injective (bytes "https://zcap.example/items")
    (bytes "https://zcap.example/d") (bytes "f") (bytes "g")
    (by decide) (by decide) (by decide) (by decide)).1⟩

/-- C3: evaluation of the shipped validator at a fully well formed delegated
capability object. The claim says such an object is accepted; instead
_checkZcap reaches the read of getDelegationProofs on the undefined exports
binding and throws, so request rejects the object with the wrapping error
that the capability must be a valid authorization capability object. The
CHANGELOG records the missing helper as a bug fixed in version 2.0.2. -/
theorem checkZcap_delegation_proof_lookup_bug :
    _checkZcap wellFormedDelegatedZcap =
      .error .referenceErrorExportsUndefined
    ∧ request true (some (bytes "https://zcap.example/items"))
        wellFormedDelegatedZcap (bytes "f") =
      .error (.invalidCapabilityObject .referenceErrorExportsUndefined) :=
  ⟨rfl, rfl⟩

/-- C4: every object capability with a present parentCapability field,
however well or badly formed, is rejected by request with the wrapping
error that the capability must be a valid authorization capability object,
because _checkZcap always throws on delegated shape input. -/
theorem request_rejects_delegated_shape (url : Option Str)
    (fields : List (Str × JSVal)) (fid : Str)
    (hpar : isUndefined (getField (.obj fields) parentCapabilityKey) = false) :
    failsAsInvalidCapability (request true url (.obj fields) fid) = true := by
  obtain ⟨e, he⟩ := checkZcap_delegated_err fields hpar
  have hres : resolveInvocationTarget (.obj fields) =
      .error (.invalidCapabilityObject e) := by
    simp [resolveInvocationTarget, he]
  unfold request
  rw [hres]
  rfl

/-- Witness for C4: a minimal delegated shape object is rejected with the
wrapping error. -/
theorem request_rejects_delegated_shape_witness :
    isUndefined (getField (.obj [(parentCapabilityKey, .str (bytes "urn:x"))])
      parentCapabilityKey) = false ∧
    failsAsInvalidCapability (request true none
      (.obj [(parentCapabilityKey, .str (bytes "urn:x"))]) (bytes "f")) =
      true :=
  ⟨rfl, request_rejects_delegated_shape none
    [(parentCapabilityKey, .str (bytes "urn:x"))] (bytes "f") rfl⟩

/-- C5: on every successful delegate call the parentCapability of the
returned document is the identifier of the input parent: the derived root
capability URI of the given invocationTarget when no capability was given,
the capability string itself when the parent was given as a string, and the
id field when the parent was given as an object. -/
theorem delegate_parentCapability_resolution (hs : Bool)
    (dp : Str → Option Nat) (cap ctrl it : JSVal) (exp : Option ExpiresArg)
    (aa : JSVal) (now : Nat) (fid : Str) :
    (∀ t d, cap = .undefined → it = .str t →
      delegate hs dp cap ctrl it exp aa now fid = .ok d →
      d.parentCapability = generateZcapUri (some t) fid) ∧
    (∀ s d, cap = .str s → s ≠ [] →
      delegate hs dp cap ctrl it exp aa now fid = .ok d →
      d.parentCapability = s) ∧
    (∀ fields i d, cap = .obj fields →
      getField (.obj fields) idKey = .str i →
      delegate hs dp cap ctrl it exp aa now fid = .ok d →
      d.parentCapability = i) := by
  refine ⟨?_, ?_, ?_⟩
  · intro t d hcap hit h
    subst hcap hit
    obtain ⟨-, -, -, ev, -, hbuild⟩ := delegate_ok _ _ _ _ _ _ _ _ _ _ h
    simp only [jsTruthy, Bool.false_eq_true, if_false, asUrlArg] at hbuild
    obtain ⟨pc, tgt, acts, hpc, -, -, hd⟩ :=
      buildDelegatedDoc_ok _ _ _ _ _ _ _ hbuild
    simp only [parentCapabilityOf, Except.ok.injEq] at hpc
    subst hd
    exact hpc.symm
  · intro s d hcap hs2 h
    subst hcap
    obtain ⟨-, -, -, ev, -, hbuild⟩ := delegate_ok _ _ _ _ _ _ _ _ _ _ h
    have hse : s.isEmpty = false := by
      cases s with
      | nil => exact absurd rfl hs2
      | cons a l => rfl
    simp only [jsTruthy, hse, Bool.not_false, if_true] at hbuild
    obtain ⟨pc, tgt, acts, hpc, -, -, hd⟩ :=
      buildDelegatedDoc_ok _ _ _ _ _ _ _ hbuild
    simp only [parentCapabilityOf, Except.ok.injEq] at hpc
    subst hd
    exact hpc.symm
  · intro fields i d hcap hid h
    subst hcap
    obtain ⟨-, -, -, ev, -, hbuild⟩ := delegate_ok _ _ _ _ _ _ _ _ _ _ h
    simp only [jsTruthy, if_true] at hbuild
    obtain ⟨pc, tgt, acts, hpc, -, -, hd⟩ :=
      buildDelegatedDoc_ok _ _ _ _ _ _ _ hbuild
    rw [parentCapabilityOf, hid] at hpc
    simp only [Except.ok.injEq] at hpc
    subst hd
    exact hpc.symm

/-- Witness for C5: delegating from the string capability urn zcap root abc
yields a document whose parentCapability is that string. -/
theorem delegate_parentCapability_resolution_witness :
    (bytes "urn:zcap:root:abc" : Str) ≠ [] ∧
    sampleC5Doc.parentCapability = bytes "urn:zcap:root:abc" :=
  ⟨by decide, (delegate_parentCapability_resolution true (fun _ => none)
    (.str (bytes "urn:zcap:root:abc")) (.str (bytes "did:key:z1"))
    (.str (bytes "https://x.example/y")) none (.arr []) 0
    (bytes "f")).2.1 (bytes "urn:zcap:root:abc") sampleC5Doc rfl
    (by decide) rfl⟩

/-- Counterexample for C6: a delegate call with no controller argument at
all (controller is undefined) succeeds and returns a delegated capability
with an undefined controller field, instead of failing with an invalid
argument error as the claim states. -/
theorem delegate_accepts_missing_controller :
    delegate true (fun _ => none) .undefined .undefined
      (.str (bytes "https://zcap.example/items")) none (.arr []) 0
      (bytes "11111111-1111-1111-1111-111111111111") =
    .ok {
      context := ZCAP_CONTEXT_URL
      id := bytes "urn:uuid:11111111-1111-1111-1111-111111111111"
      controller := .undefined
      parentCapability :=
        bytes "urn:zcap:root:https%3A%2F%2Fzcap.example%2Fitems"
      invocationTarget := bytes "https://zcap.example/items"
      expires := .sec 300
      allowedAction := none
    } := rfl

/-- C6 amended: delegate performs no validation of the controller argument;
the outcome of the call, success or the specific error, is independent of
the controller value, and on success the supplied controller value, even a
missing one, is copied verbatim into the controller field of the document. -/
theorem delegate_controller_unchecked (hs : Bool)
    (dp : Str → Option Nat) (cap ctrl ctrl2 it : JSVal)
    (exp : Option ExpiresArg) (aa : JSVal) (now : Nat) (fid : Str) :
    delegate hs dp cap ctrl it exp aa now fid =
      Except.map (fun d => { d with controller := ctrl })
        (delegate hs dp cap ctrl2 it exp aa now fid) := by
  unfold delegate
  by_cases h1 : (!hs) = true
  · rw [if_pos h1, if_pos h1]
    rfl
  · rw [if_neg h1, if_neg h1]
    by_cases h2 : (!(isUndefined it) && !(isStrWithColon it)) = true
    · rw [if_pos h2, if_pos h2]
      rfl
    · rw [if_neg h2, if_neg h2]
      by_cases h3 : (!(jsTruthy cap || jsTruthy it)) = true
      · rw [if_pos h3, if_pos h3]
        rfl
      · rw [if_neg h3, if_neg h3]
        rcases hexp : expiresResolve dp exp now with e | ev
        · rfl
        · exact buildDelegatedDoc_controller _ ctrl ctrl2 _ _ _ _

/-- C7: a delegate call with no expires option yields a document whose
expires field is the second precision serialization of the instant exactly
five minutes after the call time, which in particular lies between four and
six minutes after the call time. -/
theorem delegate_default_expires (hs : Bool) (dp : Str → Option Nat)
    (cap ctrl it aa : JSVal) (now : Nat) (fid : Str) (d : DelegatedDoc)
    (h : delegate hs dp cap ctrl it none aa now fid = .ok d) :
    d.expires = .sec ((now + 5 * 60 * 1000) / 1000) ∧
    now + 4 * 60 * 1000 ≤ ((now + 5 * 60 * 1000) / 1000) * 1000 ∧
    ((now + 5 * 60 * 1000) / 1000) * 1000 ≤ now + 6 * 60 * 1000 := by
  obtain ⟨-, -, -, ev, hev, hbuild⟩ := delegate_ok _ _ _ _ _ _ _ _ _ _ h
  have hev2 : ev = .sec ((now + 5 * 60 * 1000) / 1000) := by
    simp only [expiresResolve, Except.ok.injEq] at hev
    exact hev.symm
  obtain ⟨pc, tgt, acts, -, -, -, hd⟩ :=
    buildDelegatedDoc_ok _ _ _ _ _ _ _ hbuild
  subst hd hev2
  exact ⟨rfl, by omega, by omega⟩

/-- Witness for C7: delegating at time 1000 with no expires yields
expires 301 seconds, within the four to six minute window. -/
theorem delegate_default_expires_witness :
    sampleC7Doc.expires = .sec ((1000 + 5 * 60 * 1000) / 1000) ∧
    1000 + 4 * 60 * 1000 ≤ ((1000 + 5 * 60 * 1000) / 1000) * 1000 ∧
    ((1000 + 5 * 60 * 1000) / 1000) * 1000 ≤ 1000 + 6 * 60 * 1000 :=
  delegate_default_expires true (fun _ => none) .undefined
    (.str (bytes "did:key:zA")) (.str (bytes "https://zcap.example/a"))
    (.arr []) 1000 (bytes "g") sampleC7Doc rfl

/-- C8: a successful delegate call with a bare string s as allowedActions
yields a document whose allowedAction is the singleton list holding s,
while an empty list (the default for an omitted argument) yields a document
with no allowedAction field. -/
theorem delegate_allowedActions_normalization (hs : Bool)
    (dp : Str → Option Nat) (cap ctrl it : JSVal) (exp : Option ExpiresArg)
    (now : Nat) (fid : Str) :
    (∀ s d, delegate hs dp cap ctrl it exp (.str s) now fid = .ok d →
      d.allowedAction = some [.str s]) ∧
    (∀ d, delegate hs dp cap ctrl it exp (.arr []) now fid = .ok d →
      d.allowedAction = none) := by
  constructor
  · intro s d h
    obtain ⟨-, -, -, ev, -, hbuild⟩ := delegate_ok _ _ _ _ _ _ _ _ _ _ h
    obtain ⟨pc, tgt, acts, -, -, hacts, hd⟩ :=
      buildDelegatedDoc_ok _ _ _ _ _ _ _ hbuild
    simp only [normalizeAllowedActions, Except.ok.injEq] at hacts
    subst hd
    rw [← hacts]
    rfl
  · intro d h
    obtain ⟨-, -, -, ev, -, hbuild⟩ := delegate_ok _ _ _ _ _ _ _ _ _ _ h
    obtain ⟨pc, tgt, acts, -, -, hacts, hd⟩ :=
      buildDelegatedDoc_ok _ _ _ _ _ _ _ hbuild
    simp only [normalizeAllowedActions, Except.ok.injEq] at hacts
    subst hd
    rw [← hacts]
    rfl

/-- Witness for C8: the string read yields allowedAction with the singleton
read list; the empty list yields no allowedAction field. -/
theorem delegate_allowedActions_normalization_witness :
    sampleC8DocRead.allowedAction = some [.str (bytes "read")] ∧
    sampleC8DocNone.allowedAction = none :=
  ⟨(delegate_allowedActions_normalization true (fun _ => none)
      (.str (bytes "urn:zcap:root:abc")) (.str (bytes "did:key:z2"))
      (.str (bytes "https://x.example/y")) none 0 (bytes "h")).1
      (bytes "read") sampleC8DocRead rfl,
   (delegate_allowedActions_normalization true (fun _ => none)
      (.str (bytes "urn:zcap:root:abc")) (.str (bytes "did:key:z2"))
      (.str (bytes "https://x.example/y")) none 0 (bytes "h")).2
      sampleC8DocNone rfl⟩

/-- Counterexample for C9: generateZcapUri, given the schemeless url
no-scheme, returns a root capability URI instead of failing: the function
performs no validation at all. -/
theorem generateZcapUri_accepts_schemeless_url :
    generateZcapUri (some (bytes "no-scheme")) (bytes "f") =
      bytes "urn:zcap:root:no-scheme" := rfl

/-- C9 amended: generateZcapUri validates nothing: for every nonempty url
string, with or without a scheme separator, it returns the fixed prefix
followed by the percent encoded url; the absolute URI requirement is
enforced only by delegate on its invocationTarget argument, which fails
when the target has no colon, before generateZcapUri is ever reached. -/
theorem generateZcapUri_unvalidated (u fid : Str) (hu : u ≠ []) :
    generateZcapUri (some u) fid = ZCAP_ROOT_PREFIX ++ encodeURIComponent u ∧
    (∀ dp cap ctrl exp aa now fid2, u.contains 58 = false →
      delegate true dp cap ctrl (.str u) exp aa now fid2 =
        .error .invalidInvocationTargetArg) := by
  constructor
  · exact generateZcapUri_eq u fid hu
  · intro dp cap ctrl exp aa now fid2 hcol
    have hc : (!(isUndefined (JSVal.str u)) && !(isStrWithColon (JSVal.str u))) =
        true := by
      simp [isUndefined, isStrWithColon]
      simpa using hcol
    unfold delegate
    rw [if_neg (by simp), if_pos hc]

/-- Witness for C9: the schemeless url no-scheme-url is accepted by
generateZcapUri and rejected by delegate. -/
theorem generateZcapUri_unvalidated_witness :
    (bytes "no-scheme-url" : Str) ≠ [] ∧
    generateZcapUri (some (bytes "no-scheme-url")) (bytes "f") =
      ZCAP_ROOT_PREFIX ++ encodeURIComponent (bytes "no-scheme-url") ∧
    delegate true (fun _ => none) .undefined .undefined (.str (bytes "no-scheme-url"))
      none (.arr []) 0 (bytes "g") = .error .invalidInvocationTargetArg :=
  ⟨by decide,
   (generateZcapUri_unvalidated (bytes "no-scheme-url") (bytes "f")
     (by decide)).1,
   (generateZcapUri_unvalidated (bytes "no-scheme-url") (bytes "f")
     (by decide)).2 (fun _ => none) .undefined .undefined none (.arr []) 0
     (bytes "g") (by decide)⟩

/-- C10: neither delegate nor request mutates any pre existing object: in
the heap passing models, a delegate call leaves every heap cell other than
the freshly allocated document unchanged on success and the whole heap
unchanged on failure, and a request call returns the heap identically. -/
theorem capability_objects_never_mutated (h : Heap) (freshRef r : Nat)
    (hneq : r ≠ freshRef) (hs hs2 : Bool) (dp : Str → Option Nat)
    (capA capA2 : CapArg) (ctrl it : JSVal) (exp : Option ExpiresArg)
    (aa : JSVal) (now : Nat) (fid : Str) (url : Option Str) (fid2 : Str) :
    heapGet (delegateHeap h freshRef hs dp capA ctrl it exp aa now fid).2 r =
      heapGet h r ∧
    (requestHeap h hs2 url capA2 fid2).2 = h := by
  constructor
  · unfold delegateHeap
    rcases hd : delegate hs dp (materialize h capA) ctrl it exp aa now fid
      with e | d
    · rfl
    · show heapGet ((freshRef, docFields d) :: h) r = heapGet h r
      have hbe : (r == freshRef) = false := beq_eq_false_iff_ne.mpr hneq
      simp [heapGet, List.lookup, hbe]
  · rfl

/-- Witness for C10: a successful delegation from a heap stored capability
allocates at reference 1 and leaves the capability at reference 0 intact,
and request leaves the heap unchanged. -/
theorem capability_objects_never_mutated_witness :
    (0 : Nat) ≠ 1 ∧
    (heapGet (delegateHeap sampleHeap 1 true (fun _ => none) (.ref 0)
      (.str (bytes "did:key:z3")) .undefined none (.arr []) 0 (bytes "f")).2 0 =
      heapGet sampleHeap 0 ∧
    (requestHeap sampleHeap true none (.ref 0) (bytes "g")).2 = sampleHeap) :=
  ⟨by decide, capability_objects_never_mutated sampleHeap 1 0 (by decide)
    true true (fun _ => none) (.ref 0) (.ref 0) (.str (bytes "did:key:z3"))
    .undefined none (.arr []) 0 (bytes "f") none (bytes "g")⟩

end Ezcap
